import Mathlib

/-!
Verification of the team-roster front-end's derivation and mutation logic.

The definitions below are a shallow embedding of the JavaScript source:
record fields that the code reads through a fallback (the idiom
field or-else default) may be absent on a raw store document and are
modelled as Option; every mutation handler is modelled as a pure function
from its inputs to the writes it issues (immediately, or as the pending
action of the confirmation modal).
-/

namespace TeamRoster

/-- A roster user record as stored in the remote users collection.
Fields that the JavaScript guards with a falsy-fallback (they may be
absent on a raw document) are Option; role is the raw string stored on
the document. -/
structure User where
  id : String
  name : Option String := none
  email : Option String := none
  role : String := ""
  managerId : Option String := none
  workingHours : Option String := none
  shiftPattern : Option String := none
  vacationDates : Option (List String) := none
  skills : Option (List String) := none
  srThreshold : Option Nat := none
  currentSrCount : Option Nat := none
deriving DecidableEq, Repr

/-- A skill record (SkillManagement): store-assigned id plus a free-text name. -/
structure Skill where
  id : String
  name : String
deriving DecidableEq, Repr

/-- A single store write issued by the SR-assignment component:
updateDoc on the engineer document setting currentSrCount to value. -/
inductive SRWrite where
  | setSrCount (userId : String) (value : Nat)
deriving DecidableEq, Repr

/-- Outcome of a click on the Assign SR button: the writes issued
immediately, and, when the confirmation modal is opened, the writes that
the pending modal action would issue on Confirm. -/
structure AssignOutcome where
  writes : List SRWrite
  pending : Option (List SRWrite)
deriving DecidableEq, Repr

/-- Model of confirmAssignSR (SRAssignment.js lines 36-50): it
unconditionally performs the single write
currentSrCount := (engineer.currentSrCount or 0) + 1.
The force argument does not influence the write. -/
def confirmAssignSR (engineer : User) (force : Bool) : List SRWrite :=
  [SRWrite.setSrCount engineer.id ((engineer.currentSrCount.getD 0) + 1)]

/-- Model of handleAssignSR (SRAssignment.js lines 15-34).  Guards: an
engineer must be selected and found in myTeam; then, unless
force-assigning, an engineer with
(currentSrCount or 0) >= (srThreshold or 0) is blocked behind the
confirmation modal, whose pending action is confirmAssignSR engineer true. -/
def handleAssignSR (myTeam : List User) (selectedEngineerId : String)
    (isForceAssign : Bool) : AssignOutcome :=
  if selectedEngineerId = "" then { writes := [], pending := none }
  else
    match myTeam.find? (fun e => e.id == selectedEngineerId) with
    | none => { writes := [], pending := none }
    | some engineer =>
      if !isForceAssign && decide ((engineer.currentSrCount.getD 0) ≥ (engineer.srThreshold.getD 0)) then
        { writes := [], pending := some (confirmAssignSR engineer true) }
      else
        { writes := confirmAssignSR engineer isForceAssign, pending := none }

/-- The over-threshold test used by the assign gate (SRAssignment.js
line 27): (engineer.currentSrCount or 0) >= (engineer.srThreshold or 0). -/
def srOverThreshold (u : User) : Bool :=
  decide ((u.currentSrCount.getD 0) ≥ (u.srThreshold.getD 0))

/-- The six rendering states of the view router (App.js lines 40-95). -/
inductive View where
  | noSession
  | adminView
  | managerView
  | engineerView
  | viewerView
  | unknownRole
deriving DecidableEq, Repr

/-- The fixed role enumeration offered by the user form
(AddEditUserModal.js lines 120-123). -/
def roleEnum : List String := ["Admin", "Manager", "Engineer", "Viewer"]

/-- Model of renderView (App.js lines 40-95): chooses the rendered state
from the resolved current user.  The cached collections are in scope
(they are passed into each dashboard) but never influence which state is
chosen. -/
def renderView (users : List User) (skills : List Skill)
    (currentUser : Option User) : View :=
  match currentUser with
  | none => View.noSession
  | some u =>
    match u.role with
    | "Admin" => View.adminView
    | "Manager" => View.managerView
    | "Engineer" => View.engineerView
    | "Viewer" => View.viewerView
    | _ => View.unknownRole

/-- An authenticated identity as delivered by the auth provider:
a uid, and possibly an email (anonymous sign-in has none). -/
structure AuthUser where
  uid : String
  email : Option String := none
deriving DecidableEq, Repr

/-- The default profile synthesized for an authenticated identity that
has no users-collection document (FirebaseContext.js lines 31-42).
In the source the document payload carries no id field (the document is
keyed by the uid); the id field here records that key. -/
def defaultUserFor (authUser : AuthUser) : User :=
  { id := authUser.uid
    name := some (authUser.email.getD ("Anonymous User " ++ authUser.uid.take 5))
    email := some (authUser.email.getD (authUser.uid ++ "@example.com"))
    role := "Viewer"
    managerId := none
    workingHours := some "9 AM - 5 PM"
    shiftPattern := some "Day Shift"
    vacationDates := some []
    skills := some []
    srThreshold := some 0
    currentSrCount := some 0 }

/-- Result of resolving a session: the setDoc writes issued (document key
paired with payload) and the resulting current user. -/
structure SessionResolution where
  writes : List (String × User)
  currentUser : Option User
deriving DecidableEq, Repr

/-- Model of the onAuthStateChanged handler (FirebaseContext.js lines
20-51).  store is the users collection keyed by document id (the getDoc
lookup).  A found document is merged with the session identity into the
current user; a missing document is synthesized via defaultUserFor,
persisted keyed by the uid, and used as the current user. -/
def resolveSession (store : String → Option User) (authUser : Option AuthUser) :
    SessionResolution :=
  match authUser with
  | none => { writes := [], currentUser := none }
  | some u =>
    match store u.uid with
    | some data => { writes := [], currentUser := some { data with id := u.uid } }
    | none =>
      { writes := [(u.uid, defaultUserFor u)]
        currentUser := some (defaultUserFor u) }

/-- Role rank used by the users-cache comparator (useUsers.js line 24):
the object-literal lookup roleOrder of role, undefined (none) for roles
outside the table. -/
def roleOrder : String → Option Nat
  | "Admin" => some 0
  | "Manager" => some 1
  | "Engineer" => some 2
  | "Viewer" => some 3
  | _ => none

/-- The users-cache comparator (useUsers.js lines 23-29), parameterised by
the host's locale-aware name comparison (localeCompare), which returns a
signed number.  When exactly one of the two role ranks is undefined the
subtraction yields NaN, which the ECMAScript sort treats as plus zero;
that branch is modelled as 0.  When both ranks are undefined the strict
inequality test is false and the name comparison runs, as in the source. -/
def userCmp (nameCmp : String → String → Int) (a b : User) : Int :=
  match roleOrder a.role, roleOrder b.role with
  | some ra, some rb =>
    if ra ≠ rb then (ra : Int) - (rb : Int)
    else nameCmp (a.name.getD "") (b.name.getD "")
  | none, none => nameCmp (a.name.getD "") (b.name.getD "")
  | _, _ => 0

/-- Boolean form of the users-cache comparator: element a may stay before
element b exactly when the comparator is non-positive. -/
def userLE (nameCmp : String → String → Int) (a b : User) : Bool :=
  decide (userCmp nameCmp a b ≤ 0)

/-- The snapshot-handler sort of the users cache (useUsers.js lines
23-29).  The built-in array sort is stable, and with a consistent
comparator its result is the unique stable order, modelled by the stable
List.mergeSort. -/
def sortUsers (nameCmp : String → String → Int) (usersList : List User) :
    List User :=
  usersList.mergeSort (userLE nameCmp)

/-- Lexicographic strict comparison of character lists by code point:
the order underlying the default string comparison of the built-in array
sort (which compares UTF-16 code units; on strings of basic-plane
characters, ISO dates in particular, the two coincide). -/
def charListLt : List Char → List Char → Bool
  | [], [] => false
  | [], _ :: _ => true
  | _ :: _, [] => false
  | a :: as, b :: bs =>
    if a < b then true
    else if b < a then false
    else charListLt as bs

/-- The comparator of the built-in array sort when called with no
arguments, as used on vacation-date lists: string a may stay before
string b when b is not strictly smaller. -/
def jsSortLE (a b : String) : Bool :=
  !(charListLt b.data a.data)

/-- Outcome of a vacation add or remove click: either an informational or
validation modal with no pending write, or a confirmation modal whose
Confirm issues the given new vacationDates value. -/
inductive VacationOutcome where
  | info
  | confirmWrite (newDates : List String)
deriving DecidableEq, Repr

/-- Model of confirmAddVacationRequest (EngineerView.js lines 34-47): the
single write vacationDates := (vacationDates or empty) with dateToAdd
appended, then sorted by the default string sort. -/
def confirmAddVacationRequest (vacationDates : Option (List String))
    (dateToAdd : String) : List String :=
  (vacationDates.getD [] ++ [dateToAdd]).mergeSort jsSortLE

/-- Model of handleAddVacationRequest (EngineerView.js lines 16-32): an
empty date or a date already present short-circuits to an informational
message with no write; otherwise the confirmation modal is opened with
confirmAddVacationRequest as pending action. -/
def handleAddVacationRequest (vacationDates : Option (List String))
    (newVacationDate : String) : VacationOutcome :=
  if newVacationDate = "" then VacationOutcome.info
  else if (vacationDates.getD []).contains newVacationDate then VacationOutcome.info
  else VacationOutcome.confirmWrite (confirmAddVacationRequest vacationDates newVacationDate)

/-- Model of confirmRemoveVacationRequest (EngineerView.js lines 55-67):
the single write vacationDates := (vacationDates or empty) with every
occurrence of dateToRemove filtered out. -/
def confirmRemoveVacationRequest (vacationDates : Option (List String))
    (dateToRemove : String) : List String :=
  (vacationDates.getD []).filter (fun date => date != dateToRemove)

/-- Model of the manager-side confirmAddVacation (ManagerVacationManagement,
lines 37-53 of the component): same append-then-sort write as the
engineer self-add, against the selected engineer's record. -/
def confirmAddVacation (engineer : User) (dateToAdd : String) : List String :=
  (engineer.vacationDates.getD [] ++ [dateToAdd]).mergeSort jsSortLE

/-- Model of the manager-side handleAddVacation (ManagerVacationManagement,
lines 14-35): missing selection or date, an engineer not found in myTeam,
or a date already present all yield no write; otherwise the confirmation
modal is opened with confirmAddVacation as pending action. -/
def handleAddVacation (myTeam : List User) (selectedEngineerId : String)
    (newVacationDate : String) : VacationOutcome :=
  if selectedEngineerId = "" ∨ newVacationDate = "" then VacationOutcome.info
  else
    match myTeam.find? (fun e => e.id == selectedEngineerId) with
    | none => VacationOutcome.info
    | some engineer =>
      if (engineer.vacationDates.getD []).contains newVacationDate then VacationOutcome.info
      else VacationOutcome.confirmWrite (confirmAddVacation engineer newVacationDate)

/-- Model of the manager-side confirmRemoveVacation (ManagerVacationManagement,
lines 61-75): the filter-out write against the engineer's record. -/
def confirmRemoveVacation (engineer : User) (dateToRemove : String) : List String :=
  (engineer.vacationDates.getD []).filter (fun date => date != dateToRemove)

/-- Model of handleAddVacationDate in the admin user form
(AddEditUserModal.js lines 59-70): the local form state always holds a
plain list; a non-empty date not already present is appended and the list
re-sorted, otherwise the list is left unchanged. -/
def handleAddVacationDate (vacationDates : List String) (newDate : String) :
    List String :=
  if newDate != "" && !(vacationDates.contains newDate) then
    (vacationDates ++ [newDate]).mergeSort jsSortLE
  else vacationDates

/-- Model of handleRemoveVacationDate in the admin user form
(AddEditUserModal.js lines 72-77). -/
def handleRemoveVacationDate (vacationDates : List String)
    (dateToRemove : String) : List String :=
  vacationDates.filter (fun date => date != dateToRemove)

/-- The vacationDates invariant of the data model: each date at most
once, ascending lexicographic order (expressed through the executable
sort comparator). -/
def VacationInvariant (dates : List String) : Prop :=
  dates.Nodup ∧ dates.Pairwise (fun a b => jsSortLE a b = true)

/-- The four role buckets of the derivation layer.  The code computes
them as inline role filters, for example managers and engineersAndViewers
in OverallRosterView (index.js lines 935-936, UserManagement.js lines
180-181) and the admin filter of the other-users bucket (index.js line
1019); the specification names the grouping partitionByRole. -/
def partitionByRole (users : List User) :
    List User × List User × List User × List User :=
  (users.filter (fun u => u.role == "Admin"),
   users.filter (fun u => u.role == "Manager"),
   users.filter (fun u => u.role == "Engineer"),
   users.filter (fun u => u.role == "Viewer"))

section MergeSortHelpers

variable {α : Type}

/-- Stable-sort helper: the merge sort output is pairwise ordered as soon
as the comparator is transitive and total on the members of the input
list (the comparator may behave arbitrarily elsewhere). -/
theorem mergeSort_pairwise_of_mem (le : α → α → Bool) (l : List α)
    (htrans : ∀ a ∈ l, ∀ b ∈ l, ∀ c ∈ l, le a b = true → le b c = true → le a c = true)
    (htotal : ∀ a ∈ l, ∀ b ∈ l, le a b = true ∨ le b a = true) :
    (l.mergeSort le).Pairwise (fun a b => le a b = true) := by
  have hmap := @List.map_mergeSort {x // x ∈ l} α
    (fun a b => le a.1 b.1) le Subtype.val l.attach (fun a _ b _ => rfl)
  rw [List.attach_map_subtype_val] at hmap
  have hp : (l.attach.mergeSort (fun a b => le a.1 b.1)).Pairwise
      (fun a b => le a.1 b.1 = true) :=
    List.sorted_mergeSort
      (fun a b c hab hbc => htrans a.1 a.2 b.1 b.2 c.1 c.2 hab hbc)
      (fun a b => by
        rcases htotal a.1 a.2 b.1 b.2 with h | h <;> simp [h])
      l.attach
  rw [← hmap]
  exact List.pairwise_map.2 hp

/-- Stable-sort helper: merge sort keeps the relative order of any two
input elements already ordered by the comparator, with transitivity and
totality required only on the members of the input list. -/
theorem mergeSort_pair_sublist_of_mem (le : α → α → Bool) (l : List α)
    (htrans : ∀ a ∈ l, ∀ b ∈ l, ∀ c ∈ l, le a b = true → le b c = true → le a c = true)
    (htotal : ∀ a ∈ l, ∀ b ∈ l, le a b = true ∨ le b a = true)
    {a b : α} (hab : le a b = true) (hs : [a, b].Sublist l) :
    [a, b].Sublist (l.mergeSort le) := by
  have hmap := @List.map_mergeSort {x // x ∈ l} α
    (fun x y => le x.1 y.1) le Subtype.val l.attach (fun x _ y _ => rfl)
  rw [List.attach_map_subtype_val] at hmap
  have hsub : [a, b].Sublist (l.attach.map Subtype.val) := by
    rw [List.attach_map_subtype_val]; exact hs
  obtain ⟨l2, hl2, heq⟩ := List.sublist_map_iff.1 hsub
  match l2, heq, hl2 with
  | [x, y], heq, hl2 =>
    have hx : x.1 = a := by simpa using congrArg (fun t => t.headD a) heq.symm
    have hy : y.1 = b := by
      simpa using congrArg (fun t => (t.drop 1).headD b) heq.symm
    have hpair : [x, y].Sublist (l.attach.mergeSort (fun x y => le x.1 y.1)) :=
      List.pair_sublist_mergeSort
        (fun u v w huv hvw => htrans u.1 u.2 v.1 v.2 w.1 w.2 huv hvw)
        (fun u v => by
          rcases htotal u.1 u.2 v.1 v.2 with h | h <;> simp [h])
        (by rw [hx, hy]; exact hab) hl2
    have := hpair.map Subtype.val
    rw [hmap] at this
    simpa [hx, hy] using this

end MergeSortHelpers

/-- Unfolding of the users-cache comparator on two records whose roles
are both in the role table: the record with the smaller rank goes first,
and the name comparison decides between equal ranks. -/
theorem userLE_eq_true_iff (nameCmp : String → String → Int) {a b : User}
    {ra rb : Nat} (ha : roleOrder a.role = some ra) (hb : roleOrder b.role = some rb) :
    userLE nameCmp a b = true ↔
      (ra < rb ∨ (ra = rb ∧ nameCmp (a.name.getD "") (b.name.getD "") ≤ 0)) := by
  simp only [userLE, userCmp, ha, hb, decide_eq_true_eq]
  by_cases h : ra = rb
  · subst h
    simp
  · simp only [h, ne_eq, not_false_iff, if_true, false_and, or_false]
    omega

/-- The users-cache comparator is transitive on records with ranked roles. -/
theorem userLE_trans_of_valid (nameCmp : String → String → Int)
    (hTrans : ∀ x y z : String, nameCmp x y ≤ 0 → nameCmp y z ≤ 0 → nameCmp x z ≤ 0)
    {a b c : User} (ha : (roleOrder a.role).isSome) (hb : (roleOrder b.role).isSome)
    (hc : (roleOrder c.role).isSome)
    (hab : userLE nameCmp a b = true) (hbc : userLE nameCmp b c = true) :
    userLE nameCmp a c = true := by
  obtain ⟨ra, hra⟩ := Option.isSome_iff_exists.1 ha
  obtain ⟨rb, hrb⟩ := Option.isSome_iff_exists.1 hb
  obtain ⟨rc, hrc⟩ := Option.isSome_iff_exists.1 hc
  rw [userLE_eq_true_iff nameCmp hra hrb] at hab
  rw [userLE_eq_true_iff nameCmp hrb hrc] at hbc
  rw [userLE_eq_true_iff nameCmp hra hrc]
  rcases hab with h1 | ⟨h1, h1n⟩ <;> rcases hbc with h2 | ⟨h2, h2n⟩
  · exact Or.inl (by omega)
  · exact Or.inl (by omega)
  · exact Or.inl (by omega)
  · exact Or.inr ⟨by omega, hTrans _ _ _ h1n h2n⟩

/-- The users-cache comparator is total on records with ranked roles. -/
theorem userLE_total_of_valid (nameCmp : String → String → Int)
    (hTotal : ∀ x y : String, nameCmp x y ≤ 0 ∨ nameCmp y x ≤ 0)
    {a b : User} (ha : (roleOrder a.role).isSome) (hb : (roleOrder b.role).isSome) :
    userLE nameCmp a b = true ∨ userLE nameCmp b a = true := by
  obtain ⟨ra, hra⟩ := Option.isSome_iff_exists.1 ha
  obtain ⟨rb, hrb⟩ := Option.isSome_iff_exists.1 hb
  rw [userLE_eq_true_iff nameCmp hra hrb, userLE_eq_true_iff nameCmp hrb hra]
  by_cases h : ra = rb
  · rcases hTotal (a.name.getD "") (b.name.getD "") with hn | hn
    · exact Or.inl (Or.inr ⟨h, hn⟩)
    · exact Or.inr (Or.inr ⟨h.symm, hn⟩)
  · rcases Nat.lt_or_ge ra rb with h2 | h2
    · exact Or.inl (Or.inl h2)
    · exact Or.inr (Or.inl (by omega))

/-- C1: for every engineer record found for the current selection with
currentSrCount equal to srThreshold, the Assign SR action with force off
performs zero writes and opens the confirmation modal, whose pending
(post-confirmation) action performs exactly one write setting
currentSrCount to srThreshold plus one; with force on it performs exactly
that one write immediately. -/
theorem assignSR_at_threshold (myTeam : List User) (selectedEngineerId : String)
    (engineer : User)
    (hsel : selectedEngineerId ≠ "")
    (hfind : myTeam.find? (fun e => e.id == selectedEngineerId) = some engineer)
    (heq : engineer.currentSrCount.getD 0 = engineer.srThreshold.getD 0) :
    handleAssignSR myTeam selectedEngineerId false =
      { writes := []
        pending := some [SRWrite.setSrCount engineer.id (engineer.srThreshold.getD 0 + 1)] }
    ∧ handleAssignSR myTeam selectedEngineerId true =
      { writes := [SRWrite.setSrCount engineer.id (engineer.srThreshold.getD 0 + 1)]
        pending := none }
    ∧ confirmAssignSR engineer true =
      [SRWrite.setSrCount engineer.id (engineer.srThreshold.getD 0 + 1)] := by
  refine ⟨?_, ?_, ?_⟩ <;>
    simp [handleAssignSR, confirmAssignSR, hsel, hfind, heq]

theorem assignSR_at_threshold_witness :
    handleAssignSR
      [{ id := "e2", role := "Engineer", srThreshold := some 2, currentSrCount := some 2 }]
      "e2" false =
      { writes := [], pending := some [SRWrite.setSrCount "e2" 3] } :=
  (assignSR_at_threshold _ "e2"
    { id := "e2", role := "Engineer", srThreshold := some 2, currentSrCount := some 2 }
    (by decide) (by decide) (by decide)).1

/-- An engineer record with srThreshold zero, refuting the claim that the
over-threshold comparison never fires when the threshold is zero. -/
def zeroThresholdEngineer : User :=
  { id := "e1", role := "Engineer", srThreshold := some 0, currentSrCount := some 0 }

/-- C2 counterexample: a threshold-zero engineer with zero current count
is considered over threshold by the gate comparison, and the non-forced
assign path blocks (zero writes, confirmation demanded) - contradicting
the claim that a threshold-zero engineer is never over by this comparison
and is not blocked. -/
theorem srThresholdZero_blocks_counterexample :
    srOverThreshold zeroThresholdEngineer = true
    ∧ handleAssignSR [zeroThresholdEngineer] "e1" false =
        { writes := [], pending := some [SRWrite.setSrCount "e1" 1] } := by
  refine ⟨by decide, by decide⟩

/-- C2 amended: the over-threshold status is
(currentSrCount or 0) >= (srThreshold or 0) for every threshold value,
zero included; the non-forced assign path blocks exactly when that
comparison holds, and in particular always blocks for a threshold-zero
engineer. -/
theorem srOverThreshold_gate (myTeam : List User) (selectedEngineerId : String)
    (engineer : User)
    (hsel : selectedEngineerId ≠ "")
    (hfind : myTeam.find? (fun e => e.id == selectedEngineerId) = some engineer) :
    ((handleAssignSR myTeam selectedEngineerId false).pending.isSome
        = srOverThreshold engineer)
    ∧ ((handleAssignSR myTeam selectedEngineerId false).writes = []
        ↔ srOverThreshold engineer = true)
    ∧ (engineer.srThreshold.getD 0 = 0 →
        handleAssignSR myTeam selectedEngineerId false =
          { writes := []
            pending := some [SRWrite.setSrCount engineer.id
              (engineer.currentSrCount.getD 0 + 1)] }) := by
  refine ⟨?_, ?_, ?_⟩
  · by_cases h : (engineer.currentSrCount.getD 0) ≥ (engineer.srThreshold.getD 0) <;>
      simp [handleAssignSR, srOverThreshold, hsel, hfind, h]
  · by_cases h : (engineer.currentSrCount.getD 0) ≥ (engineer.srThreshold.getD 0) <;>
      simp [handleAssignSR, srOverThreshold, confirmAssignSR, hsel, hfind, h]
  · intro hz
    simp [handleAssignSR, confirmAssignSR, hsel, hfind, hz]

theorem srOverThreshold_gate_witness :
    (handleAssignSR [zeroThresholdEngineer] "e1" false).pending.isSome
      = srOverThreshold zeroThresholdEngineer :=
  (srOverThreshold_gate [zeroThresholdEngineer] "e1" zeroThresholdEngineer
    (by decide) (by decide)).1

/-- C10: an engineer record with both SR fields absent is read as zero on
both sides: the non-forced gate blocks (zero is at least zero) demanding
confirmation with zero writes, and the confirmed assignment writes
currentSrCount equal to one. -/
theorem assignSR_absent_fields (myTeam : List User) (selectedEngineerId : String)
    (engineer : User)
    (hsel : selectedEngineerId ≠ "")
    (hfind : myTeam.find? (fun e => e.id == selectedEngineerId) = some engineer)
    (hc : engineer.currentSrCount = none) (ht : engineer.srThreshold = none) :
    handleAssignSR myTeam selectedEngineerId false =
      { writes := [], pending := some [SRWrite.setSrCount engineer.id 1] }
    ∧ confirmAssignSR engineer true = [SRWrite.setSrCount engineer.id 1] := by
  refine ⟨?_, ?_⟩ <;> simp [handleAssignSR, confirmAssignSR, hsel, hfind, hc, ht]

theorem assignSR_absent_fields_witness :
    handleAssignSR [{ id := "e3", role := "Engineer" }] "e3" false =
      { writes := [], pending := some [SRWrite.setSrCount "e3" 1] } :=
  (assignSR_absent_fields _ "e3" { id := "e3", role := "Engineer" }
    (by decide) (by decide) rfl rfl).1

/-- The strict lexicographic comparison is transitive. -/
theorem charListLt_trans (x : List Char) : ∀ y z : List Char,
    charListLt x y = true → charListLt y z = true → charListLt x z = true := by
  induction x with
  | nil =>
    intro y z hxy hyz
    cases y with
    | nil => simp [charListLt] at hxy
    | cons b bs =>
      cases z with
      | nil => simp [charListLt] at hyz
      | cons c cs => simp [charListLt]
  | cons a as ih =>
    intro y z hxy hyz
    cases y with
    | nil => simp [charListLt] at hxy
    | cons b bs =>
      cases z with
      | nil => simp [charListLt] at hyz
      | cons c cs =>
        simp only [charListLt] at hxy hyz ⊢
        by_cases h1 : a < b <;> by_cases h2 : b < c
        · have h3 : a < c := lt_trans h1 h2
          simp [h3]
        · by_cases h4 : c < b
          · simp [h2, h4] at hyz
          · have hbc : b = c := le_antisymm (not_lt.1 h4) (not_lt.1 h2)
            simp [hbc ▸ h1]
        · by_cases h4 : b < a
          · simp [h1, h4] at hxy
          · have hab : a = b := le_antisymm (not_lt.1 h4) (not_lt.1 h1)
            simp [hab ▸ h2]
        · by_cases h4 : b < a
          · simp [h1, h4] at hxy
          · by_cases h5 : c < b
            · simp [h2, h5] at hyz
            · have hab : a = b := le_antisymm (not_lt.1 h4) (not_lt.1 h1)
              have hbc : b = c := le_antisymm (not_lt.1 h5) (not_lt.1 h2)
              have h6 : charListLt as bs = true := by simpa [h1, h4] using hxy
              have h7 : charListLt bs cs = true := by simpa [h2, h5] using hyz
              have h8 : ¬ a < c := by rw [hab, hbc]; exact lt_irrefl c
              have h9 : ¬ c < a := by rw [hab, hbc]; exact lt_irrefl c
              simp [h8, h9, ih bs cs h6 h7]

/-- The strict lexicographic comparison is irreflexive. -/
theorem charListLt_irrefl (x : List Char) : charListLt x x = false := by
  induction x with
  | nil => rfl
  | cons a as ih => simp [charListLt, ih]

/-- Two lists neither of which is strictly smaller are equal. -/
theorem charListLt_connex (x : List Char) : ∀ y : List Char,
    charListLt x y = false → charListLt y x = false → x = y := by
  induction x with
  | nil =>
    intro y hxy hyx
    cases y with
    | nil => rfl
    | cons b bs => simp [charListLt] at hxy
  | cons a as ih =>
    intro y hxy hyx
    cases y with
    | nil => simp [charListLt] at hyx
    | cons b bs =>
      simp only [charListLt] at hxy hyx
      by_cases h1 : a < b
      · simp [h1] at hxy
      · by_cases h2 : b < a
        · simp [h1, h2] at hyx
        · have hab : a = b := le_antisymm (not_lt.1 h2) (not_lt.1 h1)
          have h3 : charListLt as bs = false := by simpa [h1, h2] using hxy
          have h4 : charListLt bs as = false := by simpa [h1, h2] using hyx
          rw [hab, ih bs h3 h4]

/-- The default string comparator is transitive. -/
theorem jsSortLE_trans : ∀ a b c : String,
    jsSortLE a b = true → jsSortLE b c = true → jsSortLE a c = true := by
  intro a b c hab hbc
  simp only [jsSortLE, Bool.not_eq_true'] at hab hbc ⊢
  by_cases h2 : charListLt b.data c.data = true
  · by_cases h : charListLt c.data a.data = true
    · exact absurd (charListLt_trans _ _ _ h2 h) (by simp [hab])
    · simpa using h
  · have hcb : b.data = c.data :=
      charListLt_connex _ _ (by simpa using h2) hbc
    rw [← hcb]
    exact hab

/-- The default string comparator is total. -/
theorem jsSortLE_total : ∀ a b : String, jsSortLE a b || jsSortLE b a := by
  intro a b
  simp only [jsSortLE]
  by_cases h1 : charListLt b.data a.data = true
  · by_cases h2 : charListLt a.data b.data = true
    · have h3 := charListLt_trans _ _ _ h1 h2
      rw [charListLt_irrefl] at h3
      cases h3
    · simp [h2]
  · simp [h1]

/-- The default string comparator is antisymmetric. -/
theorem jsSortLE_antisymm (a b : String) (h1 : jsSortLE a b = true)
    (h2 : jsSortLE b a = true) : a = b := by
  simp only [jsSortLE, Bool.not_eq_true'] at h1 h2
  have h3 : a.data = b.data := charListLt_connex _ _ h2 h1
  cases a
  cases b
  exact congrArg String.mk h3

/-- Appending a date not already present and re-sorting with the default
string sort preserves the vacationDates invariant. -/
theorem vacation_add_invariant {xs : List String} {d : String}
    (hinv : VacationInvariant xs) (hd : d ∉ xs) :
    VacationInvariant ((xs ++ [d]).mergeSort jsSortLE) := by
  constructor
  · exact ((List.mergeSort_perm (xs ++ [d]) jsSortLE).nodup_iff).2
      (by simp [List.nodup_append, hinv.1, hd])
  · exact List.sorted_mergeSort jsSortLE_trans jsSortLE_total (xs ++ [d])

/-- Filtering preserves the vacationDates invariant. -/
theorem vacation_filter_invariant {xs : List String} (p : String → Bool)
    (hinv : VacationInvariant xs) : VacationInvariant (xs.filter p) :=
  ⟨hinv.1.filter p, hinv.2.filter p⟩

/-- C4: every vacation mutator - engineer self-add (behind its duplicate
guard), manager add (behind its duplicate guard), admin form add, and the
three corresponding removals - yields a vacationDates sequence that again
contains each date at most once and is in ascending lexicographic order,
provided the input sequence satisfied that invariant. -/
theorem vacationMutators_invariant (xs : List String) (d : String)
    (hinv : VacationInvariant xs) :
    (∀ ys, handleAddVacationRequest (some xs) d = VacationOutcome.confirmWrite ys →
      VacationInvariant ys)
    ∧ (∀ (myTeam : List User) (selectedEngineerId : String) (engineer : User)
        (ys : List String),
        myTeam.find? (fun e => e.id == selectedEngineerId) = some engineer →
        engineer.vacationDates = some xs →
        handleAddVacation myTeam selectedEngineerId d = VacationOutcome.confirmWrite ys →
        VacationInvariant ys)
    ∧ VacationInvariant (handleAddVacationDate xs d)
    ∧ VacationInvariant (confirmRemoveVacationRequest (some xs) d)
    ∧ (∀ engineer : User, engineer.vacationDates = some xs →
        VacationInvariant (confirmRemoveVacation engineer d))
    ∧ VacationInvariant (handleRemoveVacationDate xs d) := by
  refine ⟨?_, ?_, ?_, ?_, ?_, ?_⟩
  · intro ys h
    by_cases h0 : d = ""
    · simp [handleAddVacationRequest, h0] at h
    · by_cases h1 : d ∈ xs
      · simp [handleAddVacationRequest, h0, h1] at h
      · simp [handleAddVacationRequest, confirmAddVacationRequest, h0, h1] at h
        exact h ▸ vacation_add_invariant hinv h1
  · intro myTeam selectedEngineerId engineer ys hfind hvac h
    by_cases h0 : selectedEngineerId = "" ∨ d = ""
    · simp [handleAddVacation, h0] at h
    · by_cases h1 : d ∈ xs
      · simp [handleAddVacation, h0, hfind, hvac, h1] at h
      · simp [handleAddVacation, confirmAddVacation, h0, hfind, hvac, h1] at h
        exact h ▸ vacation_add_invariant hinv h1
  · by_cases h0 : d = ""
    · simpa [handleAddVacationDate, h0] using hinv
    · by_cases h1 : d ∈ xs
      · simpa [handleAddVacationDate, h0, h1] using hinv
      · simpa [handleAddVacationDate, h0, h1] using vacation_add_invariant hinv h1
  · exact vacation_filter_invariant _ hinv
  · intro engineer hvac
    simpa [confirmRemoveVacation, hvac] using
      vacation_filter_invariant (fun date => date != d) hinv
  · exact vacation_filter_invariant _ hinv

theorem vacationMutators_invariant_witness :
    VacationInvariant
      (handleAddVacationDate ["2024-03-01", "2024-05-10"] "2024-01-01") :=
  (vacationMutators_invariant ["2024-03-01", "2024-05-10"] "2024-01-01"
    ⟨by decide, by decide⟩).2.2.1

/-- C5: adding a date already present takes the informational,
non-mutating path: the engineer and manager handlers short-circuit to an
informational modal with no pending write, and the admin form handler
returns the sequence unchanged. -/
theorem duplicateAdd_noop (xs : List String) (d : String) (hd : d ∈ xs) :
    handleAddVacationRequest (some xs) d = VacationOutcome.info
    ∧ (∀ (myTeam : List User) (selectedEngineerId : String) (engineer : User),
        myTeam.find? (fun e => e.id == selectedEngineerId) = some engineer →
        engineer.vacationDates = some xs →
        handleAddVacation myTeam selectedEngineerId d = VacationOutcome.info)
    ∧ handleAddVacationDate xs d = xs := by
  refine ⟨?_, ?_, ?_⟩
  · by_cases h0 : d = "" <;> simp [handleAddVacationRequest, h0, hd]
  · intro myTeam selectedEngineerId engineer hfind hvac
    by_cases h0 : selectedEngineerId = "" ∨ d = "" <;>
      simp [handleAddVacation, h0, hfind, hvac, hd]
  · simp [handleAddVacationDate, hd]

theorem duplicateAdd_noop_witness :
    handleAddVacationRequest (some ["2024-03-01", "2024-05-10"]) "2024-03-01"
      = VacationOutcome.info :=
  (duplicateAdd_noop ["2024-03-01", "2024-05-10"] "2024-03-01" (by decide)).1

unseal List.merge List.mergeSort in
/-- C6 counterexample: the claim quantifies over every duplicate-free
sequence, but the add mutator re-sorts, so a duplicate-free sequence that
is not in ascending order is not returned to its exact prior state by an
add-then-remove round trip. -/
theorem addRemove_roundTrip_counterexample :
    ["2024-05-10", "2024-03-01"].Nodup
    ∧ "2024-01-01" ∉ ["2024-05-10", "2024-03-01"]
    ∧ confirmRemoveVacationRequest
        (some (confirmAddVacationRequest (some ["2024-05-10", "2024-03-01"]) "2024-01-01"))
        "2024-01-01" ≠ ["2024-05-10", "2024-03-01"] := by
  refine ⟨by decide, by decide, by decide⟩

/-- C6 amended: for every vacationDates sequence with no duplicate dates
that is in ascending order (the stored invariant) and every date not in
it, adding that date and then removing it returns the sequence to its
exact prior state. -/
theorem addRemove_roundTrip (xs : List String) (d : String)
    (hinv : VacationInvariant xs) (hmem : d ∉ xs) :
    confirmRemoveVacationRequest
      (some (confirmAddVacationRequest (some xs) d)) d = xs := by
  simp only [confirmRemoveVacationRequest, confirmAddVacationRequest, Option.getD_some]
  have hperm : (((xs ++ [d]).mergeSort jsSortLE).filter (fun date => date != d)).Perm
      ((xs ++ [d]).filter (fun date => date != d)) :=
    (List.mergeSort_perm (xs ++ [d]) jsSortLE).filter _
  have hfx : (xs ++ [d]).filter (fun date => date != d) = xs := by
    rw [List.filter_append]
    have h1 : xs.filter (fun date => date != d) = xs :=
      List.filter_eq_self.2 (fun a ha => by
        simp only [bne_iff_ne, ne_eq]
        exact fun had => hmem (had ▸ ha))
    have h2 : [d].filter (fun date => date != d) = [] := by simp
    rw [h1, h2, List.append_nil]
  rw [hfx] at hperm
  have hs1 : (((xs ++ [d]).mergeSort jsSortLE).filter
      (fun date => date != d)).Pairwise (fun a b => jsSortLE a b = true) :=
    (List.sorted_mergeSort jsSortLE_trans jsSortLE_total (xs ++ [d])).filter _
  haveI : IsAntisymm String (fun a b => jsSortLE a b = true) := ⟨jsSortLE_antisymm⟩
  exact List.eq_of_perm_of_sorted hperm hs1 hinv.2

theorem addRemove_roundTrip_witness :
    confirmRemoveVacationRequest
      (some (confirmAddVacationRequest (some ["2024-03-01", "2024-05-10"]) "2024-01-01"))
      "2024-01-01" = ["2024-03-01", "2024-05-10"] :=
  addRemove_roundTrip ["2024-03-01", "2024-05-10"] "2024-01-01"
    ⟨by decide, by decide⟩ (by decide)

/-- C3: after every snapshot replacement the users cache is the stable
sort of the snapshot under the role-rank-then-name order: the result is a
permutation of the snapshot; any record preceding another has a strictly
smaller role rank when the roles differ, and a non-positive name
comparison when the roles agree; and any two snapshot records already
ordered by the comparator (in particular records equal under both keys)
keep their relative order.  The name comparison is an arbitrary
locale-aware comparator assumed transitive and total in sign, and every
snapshot record carries a role from the enumeration (outside it the
comparator returns NaN and the sort order is unspecified). -/
theorem usersCache_sorted_stable (nameCmp : String → String → Int)
    (hTrans : ∀ x y z : String, nameCmp x y ≤ 0 → nameCmp y z ≤ 0 → nameCmp x z ≤ 0)
    (hTotal : ∀ x y : String, nameCmp x y ≤ 0 ∨ nameCmp y x ≤ 0)
    (snapshot : List User)
    (hroles : ∀ u ∈ snapshot, (roleOrder u.role).isSome) :
    (sortUsers nameCmp snapshot).Perm snapshot
    ∧ (sortUsers nameCmp snapshot).Pairwise (fun a b =>
        (∀ ra ∈ roleOrder a.role, ∀ rb ∈ roleOrder b.role, ra ≠ rb → ra < rb)
        ∧ (roleOrder a.role = roleOrder b.role →
            nameCmp (a.name.getD "") (b.name.getD "") ≤ 0))
    ∧ (∀ a b : User, [a, b].Sublist snapshot →
        roleOrder a.role = roleOrder b.role →
        nameCmp (a.name.getD "") (b.name.getD "") ≤ 0 →
        [a, b].Sublist (sortUsers nameCmp snapshot)) := by
  have htr : ∀ a ∈ snapshot, ∀ b ∈ snapshot, ∀ c ∈ snapshot,
      userLE nameCmp a b = true → userLE nameCmp b c = true →
      userLE nameCmp a c = true :=
    fun a ha b hb c hc =>
      userLE_trans_of_valid nameCmp hTrans (hroles a ha) (hroles b hb) (hroles c hc)
  have hto : ∀ a ∈ snapshot, ∀ b ∈ snapshot,
      userLE nameCmp a b = true ∨ userLE nameCmp b a = true :=
    fun a ha b hb =>
      userLE_total_of_valid nameCmp hTotal (hroles a ha) (hroles b hb)
  refine ⟨List.mergeSort_perm snapshot _, ?_, ?_⟩
  · have hp := mergeSort_pairwise_of_mem (userLE nameCmp) snapshot htr hto
    refine hp.imp_of_mem ?_
    intro a b hma hmb hab
    have ha := hroles a (List.mem_mergeSort.1 hma)
    have hb := hroles b (List.mem_mergeSort.1 hmb)
    obtain ⟨ra, hra⟩ := Option.isSome_iff_exists.1 ha
    obtain ⟨rb, hrb⟩ := Option.isSome_iff_exists.1 hb
    rw [userLE_eq_true_iff nameCmp hra hrb] at hab
    constructor
    · intro ra2 hra2 rb2 hrb2 hne
      rw [hra] at hra2
      rw [hrb] at hrb2
      cases hra2
      cases hrb2
      rcases hab with h | ⟨h, _⟩
      · exact h
      · exact absurd h hne
    · intro hroleEq
      rw [hra, hrb] at hroleEq
      cases hroleEq
      rcases hab with h | ⟨_, h⟩
      · exact absurd h (Nat.lt_irrefl ra)
      · exact h
  · intro a b hs hroleEq hname
    have ha := hroles a (hs.subset (by simp))
    have hb := hroles b (hs.subset (by simp))
    obtain ⟨ra, hra⟩ := Option.isSome_iff_exists.1 ha
    obtain ⟨rb, hrb⟩ := Option.isSome_iff_exists.1 hb
    have hreq : ra = rb := by
      rw [hra, hrb] at hroleEq
      exact Option.some_injective _ hroleEq
    have hab : userLE nameCmp a b = true :=
      (userLE_eq_true_iff nameCmp hra hrb).2 (Or.inr ⟨hreq, hname⟩)
    exact mergeSort_pair_sublist_of_mem (userLE nameCmp) snapshot htr hto hab hs

theorem usersCache_sorted_stable_witness :
    (sortUsers (fun _ _ => 0)
      [{ id := "u1", name := some "Bob", role := "Engineer" },
       { id := "u2", name := some "Alice", role := "Admin" }]).Perm
      [{ id := "u1", name := some "Bob", role := "Engineer" },
       { id := "u2", name := some "Alice", role := "Admin" }] :=
  (usersCache_sorted_stable (fun _ _ => 0)
    (fun _ _ _ _ _ => le_refl 0) (fun _ _ => Or.inl (le_refl 0))
    [{ id := "u1", name := some "Bob", role := "Engineer" },
     { id := "u2", name := some "Alice", role := "Admin" }]
    (by decide)).1

/-- C7: on a sequence of records whose roles all lie in the enumeration,
the four role buckets form a partition: their concatenation is a
permutation of the input (so no record is duplicated or dropped and each
appears exactly once overall), and membership in each bucket is exactly
membership in the input with the matching role. -/
theorem partitionByRole_partition (users : List User)
    (hroles : ∀ u ∈ users, u.role ∈ roleEnum) :
    ((partitionByRole users).1 ++ (partitionByRole users).2.1
      ++ (partitionByRole users).2.2.1 ++ (partitionByRole users).2.2.2).Perm users
    ∧ (∀ u : User, u ∈ (partitionByRole users).1 ↔ u ∈ users ∧ u.role = "Admin")
    ∧ (∀ u : User, u ∈ (partitionByRole users).2.1 ↔ u ∈ users ∧ u.role = "Manager")
    ∧ (∀ u : User, u ∈ (partitionByRole users).2.2.1 ↔ u ∈ users ∧ u.role = "Engineer")
    ∧ (∀ u : User, u ∈ (partitionByRole users).2.2.2 ↔ u ∈ users ∧ u.role = "Viewer") := by
  refine ⟨?_, ?_, ?_, ?_, ?_⟩
  · rw [List.perm_iff_count]
    intro u
    simp only [partitionByRole, List.count_append]
    have hzero : ∀ r : String, ¬ (u.role = r) →
        (users.filter (fun x => x.role == r)).count u = 0 := by
      intro r hr
      refine List.count_eq_zero.2 (fun hmem => ?_)
      exact hr (by simpa using (List.mem_filter.1 hmem).2)
    by_cases hu : u ∈ users
    · have hr := hroles u hu
      simp only [roleEnum, List.mem_cons, List.not_mem_nil, or_false] at hr
      rcases hr with h | h | h | h
      · rw [hzero "Manager" (by simp [h]), hzero "Engineer" (by simp [h]),
          hzero "Viewer" (by simp [h]), List.count_filter (by simp [h])]
        omega
      · rw [hzero "Admin" (by simp [h]), hzero "Engineer" (by simp [h]),
          hzero "Viewer" (by simp [h]), List.count_filter (by simp [h])]
        omega
      · rw [hzero "Admin" (by simp [h]), hzero "Manager" (by simp [h]),
          hzero "Viewer" (by simp [h]), List.count_filter (by simp [h])]
        omega
      · rw [hzero "Admin" (by simp [h]), hzero "Manager" (by simp [h]),
          hzero "Engineer" (by simp [h]), List.count_filter (by simp [h])]
        omega
    · have hz2 : ∀ r : String, (users.filter (fun x => x.role == r)).count u = 0 :=
        fun r => List.count_eq_zero.2 (fun hmem => hu ((List.mem_filter.1 hmem).1))
      rw [hz2, hz2, hz2, hz2, List.count_eq_zero.2 hu]
  · intro u
    simp [partitionByRole, List.mem_filter]
  · intro u
    simp [partitionByRole, List.mem_filter]
  · intro u
    simp [partitionByRole, List.mem_filter]
  · intro u
    simp [partitionByRole, List.mem_filter]

theorem partitionByRole_partition_witness :
    ((partitionByRole [{ id := "u1", role := "Manager" }, { id := "u2", role := "Admin" }]).1
      ++ (partitionByRole [{ id := "u1", role := "Manager" }, { id := "u2", role := "Admin" }]).2.1
      ++ (partitionByRole [{ id := "u1", role := "Manager" }, { id := "u2", role := "Admin" }]).2.2.1
      ++ (partitionByRole [{ id := "u1", role := "Manager" }, { id := "u2", role := "Admin" }]).2.2.2).Perm
      [{ id := "u1", role := "Manager" }, { id := "u2", role := "Admin" }] :=
  (partitionByRole_partition
    [{ id := "u1", role := "Manager" }, { id := "u2", role := "Admin" }] (by decide)).1

/-- C8: the view router is a function of the resolved current user only:
with no current user it renders the no-session state whatever the caches
hold; a current user with a role in the enumeration renders exactly the
dashboard of that role; any role outside the enumeration renders the
access-denied state. -/
theorem renderView_spec :
    (∀ (users : List User) (skills : List Skill),
        renderView users skills none = View.noSession)
    ∧ (∀ (users users2 : List User) (skills skills2 : List Skill)
        (currentUser : Option User),
        renderView users skills currentUser = renderView users2 skills2 currentUser)
    ∧ (∀ (users : List User) (skills : List Skill) (u : User),
        u.role = "Admin" → renderView users skills (some u) = View.adminView)
    ∧ (∀ (users : List User) (skills : List Skill) (u : User),
        u.role = "Manager" → renderView users skills (some u) = View.managerView)
    ∧ (∀ (users : List User) (skills : List Skill) (u : User),
        u.role = "Engineer" → renderView users skills (some u) = View.engineerView)
    ∧ (∀ (users : List User) (skills : List Skill) (u : User),
        u.role = "Viewer" → renderView users skills (some u) = View.viewerView)
    ∧ (∀ (users : List User) (skills : List Skill) (u : User),
        u.role ∉ roleEnum → renderView users skills (some u) = View.unknownRole) := by
  refine ⟨fun _ _ => rfl, ?_, ?_, ?_, ?_, ?_, ?_⟩
  · intro users users2 skills skills2 currentUser
    cases currentUser <;> rfl
  · intro users skills u h
    simp [renderView, h]
  · intro users skills u h
    simp [renderView, h]
  · intro users skills u h
    simp [renderView, h]
  · intro users skills u h
    simp [renderView, h]
  · intro users skills u h
    simp only [renderView]
    split
    · rename_i heq
      exact absurd (by simp [roleEnum, heq]) h
    · rename_i heq
      exact absurd (by simp [roleEnum, heq]) h
    · rename_i heq
      exact absurd (by simp [roleEnum, heq]) h
    · rename_i heq
      exact absurd (by simp [roleEnum, heq]) h
    · rfl

theorem renderView_spec_witness :
    renderView [] [] (some { id := "u1", role := "Contractor" }) = View.unknownRole :=
  renderView_spec.2.2.2.2.2.2 [] [] { id := "u1", role := "Contractor" } (by decide)

/-- C9: when the session identity has no users-collection document, the
provider synthesizes the default profile - role Viewer, empty skills and
vacationDates, both SR fields zero, placeholder working hours and shift
pattern - persists it as exactly one write keyed by the identity, and
uses it as the current user. -/
theorem sessionDefaultProfile (store : String → Option User) (authUser : AuthUser)
    (hmiss : store authUser.uid = none) :
    resolveSession store (some authUser) =
      { writes := [(authUser.uid, defaultUserFor authUser)]
        currentUser := some (defaultUserFor authUser) }
    ∧ (resolveSession store (some authUser)).writes.length = 1
    ∧ (defaultUserFor authUser).role = "Viewer"
    ∧ (defaultUserFor authUser).skills = some []
    ∧ (defaultUserFor authUser).vacationDates = some []
    ∧ (defaultUserFor authUser).srThreshold = some 0
    ∧ (defaultUserFor authUser).currentSrCount = some 0
    ∧ (defaultUserFor authUser).workingHours = some "9 AM - 5 PM"
    ∧ (defaultUserFor authUser).shiftPattern = some "Day Shift"
    ∧ (defaultUserFor authUser).id = authUser.uid := by
  refine ⟨?_, ?_, rfl, rfl, rfl, rfl, rfl, rfl, rfl, rfl⟩
  · simp [resolveSession, hmiss]
  · simp [resolveSession, hmiss]

theorem sessionDefaultProfile_witness :
    resolveSession (fun _ => none) (some { uid := "abc123" }) =
      { writes := [("abc123", defaultUserFor { uid := "abc123" })]
        currentUser := some (defaultUserFor { uid := "abc123" }) } :=
  (sessionDefaultProfile (fun _ => none) { uid := "abc123" } rfl).1

end TeamRoster
